import Mathlib

/-!
Verification of `src/view/com/composer/text-input/TextInput.web.tsx`, the
rich-text compose box of the social-app web front-end.  The file below is a
shallow embedding of that component: the editor JSON document model, the two
recursive converters `editorJsonToText` and `editorJsonToLinks`, the
`onUpdate`, `handleKeyDown` and `handlePaste` editor callbacks, the `Link`
extension configuration and the imperative handle.  External libraries
(the RichText library, the media utilities, the clipboard) are abstracted by
parameters or by records that track exactly the calls the component makes.
-/

namespace TextInputWeb

/-- Attributes object of an editor JSON node or mark.  The component reads
only the fields `id` (on mention nodes) and `href` (on link marks); a field
that is absent or `null`/`undefined` in JavaScript is `none` here. -/
structure Attrs where
  id : Option String
  href : Option String
deriving DecidableEq, Repr

/-- A mark attached to an editor JSON node, as in tiptap JSONContent:
a `type` string and an optional attributes object. -/
structure Mark where
  type : String
  attrs : Option Attrs
deriving DecidableEq, Repr

mutual

/-- Editor JSON node (tiptap `JSONContent`): optional `type`, optional
`content` array of child nodes, optional `text`, optional `attrs`, optional
`marks` array. -/
inductive JSONContent : Type where
  | node (type : Option String) (content : JContent) (text : Option String)
      (attrs : Option Attrs) (marks : Option (List Mark)) : JSONContent

/-- The optional `content` field: either absent (`undefined`) or an array of
child nodes.  Written as its own inductive so that the recursion through the
child list stays structural. -/
inductive JContent : Type where
  | undef : JContent
  | arr (l : JList) : JContent

/-- A list of editor JSON nodes (the `content` array). -/
inductive JList : Type where
  | nil : JList
  | cons (hd : JSONContent) (tl : JList) : JList

end

/-- Length of a child array, used to model the `json.content?.length`
truthiness test. -/
def JList.length : JList → Nat
  | .nil => 0
  | .cons _ tl => 1 + tl.length

/-- JavaScript `s || ''` applied to a possibly missing string: an absent
value gives the empty string; a present empty string is falsy in JavaScript
and also gives the empty string, which coincides with returning it. -/
def jsOrEmpty : Option String → String
  | none => ""
  | some s => s

mutual

/-- `editorJsonToText` from the source: recursive tree-to-string
conversion of an editor JSON node. -/
def editorJsonToText : JSONContent → String
  | .node ty content text attrs _marks =>
    if ty = some "doc" ∨ ty = some "paragraph" then
      (match content with
        | .undef => ""
        | .arr l => if l.length ≠ 0 then editorJsonListToText l else "") ++ "\n"
    else if ty = some "hardBreak" then "\n"
    else if ty = some "text" then jsOrEmpty text
    else if ty = some "mention" then "@" ++ jsOrEmpty (attrs.bind Attrs.id)
    else ""

/-- The `for (const node of json.content)` loop of `editorJsonToText`:
accumulates the conversion of each child in order. -/
def editorJsonListToText : JList → String
  | .nil => ""
  | .cons hd tl => editorJsonToText hd ++ editorJsonListToText tl

end

mutual

/-- `editorJsonToLinks` from the source: gathers the links of the children
first, then looks for the first mark of type link on the node itself
(`json.marks?.find(m => m.type === 'link')`) and appends its `href`
attribute when that attribute is truthy. -/
def editorJsonToLinks : JSONContent → List String
  | .node _ty content _text _attrs marks =>
    let links : List String :=
      match content with
      | .undef => []
      | .arr l => if l.length ≠ 0 then editorJsonListToLinks l else []
    let link : Option Mark :=
      match marks with
      | none => none
      | some ms => ms.find? (fun m => m.type = "link")
    match (link.bind Mark.attrs).bind Attrs.href with
    | some h => if h ≠ "" then links ++ [h] else links
    | none => links

/-- The `for (const node of json.content)` loop of `editorJsonToLinks`:
concatenates the links of each child in order. -/
def editorJsonListToLinks : JList → List String
  | .nil => []
  | .cons hd tl => editorJsonToLinks hd ++ editorJsonListToLinks tl

end

/-! ### Specification functions for the converter claims

These follow the words of the specification claims, to be compared with the
definitions above, which follow the source. -/

mutual

/-- Claim wording for the text converter: concatenation of the children's
conversions followed by a newline for doc and paragraph nodes, a newline for
hardBreak, the text field or the empty string for text nodes, an at sign
followed by the id (or alone when the id is absent or empty) for mention
nodes, and the empty string otherwise. -/
def editorJsonToTextSpec : JSONContent → String
  | .node ty content text attrs _marks =>
    if ty = some "doc" ∨ ty = some "paragraph" then
      editorJsonChildrenToTextSpec content ++ "\n"
    else if ty = some "hardBreak" then "\n"
    else if ty = some "text" then
      (match text with
        | some s => s
        | none => "")
    else if ty = some "mention" then
      (match attrs.bind Attrs.id with
        | some s => if s = "" then "@" else "@" ++ s
        | none => "@")
    else ""

/-- Children of a node under the claim wording: an absent content field means
no children. -/
def editorJsonChildrenToTextSpec : JContent → String
  | .undef => ""
  | .arr l => editorJsonListToTextSpec l

/-- Concatenation of the conversions of a list of children, in order. -/
def editorJsonListToTextSpec : JList → String
  | .nil => ""
  | .cons hd tl => editorJsonToTextSpec hd ++ editorJsonListToTextSpec tl

end

mutual

/-- Claim wording for the link converter, as stated in C3: the href
attributes of all marks of type link that have a truthy href, children
first. -/
def editorJsonToLinksClaim : JSONContent → List String
  | .node _ty content _text _attrs marks =>
    editorJsonChildrenToLinksClaim content ++
      (match marks with
        | none => []
        | some ms =>
          ms.filterMap (fun m =>
            if m.type = "link" then
              match m.attrs.bind Attrs.href with
              | some h => if h ≠ "" then some h else none
              | none => none
            else none))

/-- Children contribution under the C3 claim wording. -/
def editorJsonChildrenToLinksClaim : JContent → List String
  | .undef => []
  | .arr l => editorJsonListToLinksClaim l

/-- Concatenation of the link lists of a list of children, in order. -/
def editorJsonListToLinksClaim : JList → List String
  | .nil => []
  | .cons hd tl => editorJsonToLinksClaim hd ++ editorJsonListToLinksClaim tl

end

mutual

/-- Amended wording for the link converter: each node contributes at most one
entry, the href of its first mark of type link, and only when that mark has a
truthy href; children first. -/
def editorJsonToLinksAmended : JSONContent → List String
  | .node _ty content _text _attrs marks =>
    editorJsonChildrenToLinksAmended content ++
      (match (match marks with
              | none => (none : Option Mark)
              | some ms => ms.find? (fun m => m.type = "link")) with
        | some mk =>
          (match mk.attrs.bind Attrs.href with
            | some h => if h ≠ "" then [h] else []
            | none => [])
        | none => [])

/-- Children contribution under the amended C3 wording. -/
def editorJsonChildrenToLinksAmended : JContent → List String
  | .undef => []
  | .arr l => editorJsonListToLinksAmended l

/-- Concatenation of the link lists of a list of children, in order. -/
def editorJsonListToLinksAmended : JList → List String
  | .nil => []
  | .cons hd tl => editorJsonToLinksAmended hd ++ editorJsonListToLinksAmended tl

end

/-- The source guards each child loop with a truthiness test on
`content?.length`; skipping the loop on an empty array produces the same
empty string, so the guard is redundant for the text converter. -/
theorem guardedListToText_eq (l : JList) :
    (if l.length ≠ 0 then editorJsonListToText l else "") = editorJsonListToText l := by
  cases l <;> simp [JList.length, editorJsonListToText]

/-- The same redundancy of the length guard, for the link converter. -/
theorem guardedListToLinks_eq (l : JList) :
    (if l.length ≠ 0 then editorJsonListToLinks l else []) = editorJsonListToLinks l := by
  cases l <;> simp [JList.length, editorJsonListToLinks]

mutual

/-- Auxiliary equivalence between the source text converter and the claim
wording, on nodes. -/
theorem textEqSpecAux : ∀ j, editorJsonToText j = editorJsonToTextSpec j
  | .node ty c t a m => by
    cases c with
    | undef =>
      simp only [editorJsonToText, editorJsonToTextSpec, editorJsonChildrenToTextSpec]
      split_ifs
      · rfl
      · rfl
      · cases t <;> rfl
      · rcases ha : a.bind Attrs.id with _ | s
        · simp [jsOrEmpty]
        · simp only [jsOrEmpty]
          by_cases hs : s = "" <;> simp [hs]
      · rfl
    | arr l =>
      have hl := textListEqSpecAux l
      simp only [editorJsonToText, editorJsonToTextSpec, editorJsonChildrenToTextSpec]
      rw [guardedListToText_eq, hl]
      split_ifs
      · rfl
      · rfl
      · cases t <;> rfl
      · rcases ha : a.bind Attrs.id with _ | s
        · simp [jsOrEmpty]
        · simp only [jsOrEmpty]
          by_cases hs : s = "" <;> simp [hs]
      · rfl

/-- Auxiliary equivalence between the source text converter and the claim
wording, on child lists. -/
theorem textListEqSpecAux : ∀ l, editorJsonListToText l = editorJsonListToTextSpec l
  | .nil => rfl
  | .cons hd tl => by
    rw [editorJsonListToText, editorJsonListToTextSpec, textEqSpecAux hd,
      textListEqSpecAux tl]

end

mutual

/-- Auxiliary equivalence between the source link converter and the amended
wording, on nodes. -/
theorem linksEqAmendedAux : ∀ j, editorJsonToLinks j = editorJsonToLinksAmended j
  | .node ty c t a m => by
    cases c with
    | undef =>
      rcases m with _ | ms
      · simp [editorJsonToLinks, editorJsonToLinksAmended,
          editorJsonChildrenToLinksAmended]
      · simp only [editorJsonToLinks, editorJsonToLinksAmended,
          editorJsonChildrenToLinksAmended]
        rcases hfind : ms.find? (fun mk => mk.type = "link") with _ | mk
        · simp [hfind]
        · rcases hattrs : mk.attrs with _ | a2
          · simp [hfind, hattrs]
          · rcases hhref : a2.href with _ | h
            · simp [hfind, hattrs, hhref]
            · by_cases hh : h = "" <;> simp [hfind, hattrs, hhref, hh]
    | arr l =>
      have hl := linksListEqAmendedAux l
      rcases m with _ | ms
      · simp only [editorJsonToLinks, editorJsonToLinksAmended,
          editorJsonChildrenToLinksAmended]
        rw [guardedListToLinks_eq, hl]
        simp
      · simp only [editorJsonToLinks, editorJsonToLinksAmended,
          editorJsonChildrenToLinksAmended]
        rw [guardedListToLinks_eq, hl]
        rcases hfind : ms.find? (fun mk => mk.type = "link") with _ | mk
        · simp [hfind]
        · rcases hattrs : mk.attrs with _ | a2
          · simp [hfind, hattrs]
          · rcases hhref : a2.href with _ | h
            · simp [hfind, hattrs, hhref]
            · by_cases hh : h = "" <;> simp [hfind, hattrs, hhref, hh]

/-- Auxiliary equivalence between the source link converter and the amended
wording, on child lists. -/
theorem linksListEqAmendedAux : ∀ l, editorJsonListToLinks l = editorJsonListToLinksAmended l
  | .nil => rfl
  | .cons hd tl => by
    rw [editorJsonListToLinks, editorJsonListToLinksAmended, linksEqAmendedAux hd,
      linksListEqAmendedAux tl]

end

/-- Claim C1: editorJsonToText is the recursive tree-to-string converter
described by the claim: concatenation of the children's conversions plus a
newline for doc and paragraph nodes, a newline for hardBreak, the text field
(or the empty string when absent) for text nodes, an at sign followed by the
id (or alone when the id is absent or empty) for mention nodes, and the empty
string for every other node type. -/
theorem editorJsonToText_matches_claim :
    ∀ j, editorJsonToText j = editorJsonToTextSpec j :=
  textEqSpecAux

/-- Claim C3, counterexample: on a node carrying two marks of type link, the
first without any href and the second with a truthy href, the source returns
no link because only the first link mark is examined, while the claim says
all link marks with a truthy href contribute. -/
theorem editorJsonToLinks_claim_counterexample :
    editorJsonToLinks
        (.node (some "text") .undef (some "hi") none
          (some [⟨"link", none⟩, ⟨"link", some ⟨none, some "https://example.com"⟩⟩])) ≠
      editorJsonToLinksClaim
        (.node (some "text") .undef (some "hi") none
          (some [⟨"link", none⟩, ⟨"link", some ⟨none, some "https://example.com"⟩⟩])) := by
  decide

/-- Claim C3, amended: editorJsonToLinks gathers links depth first, children
before the node, and each node contributes at most one entry: the href of its
first mark of type link, and only when that href is truthy. -/
theorem editorJsonToLinks_matches_amended_claim :
    ∀ j, editorJsonToLinks j = editorJsonToLinksAmended j :=
  linksEqAmendedAux

/-! ### The component model: callbacks and their observable effects -/

/-- Abstraction of a RichText value from the external api library, as far as
the component observes it: the text it was constructed with, and whether
detectFacetsWithoutResolution has been invoked on it.  The facet detection
algorithm itself is external and not modelled. -/
structure RichTextM where
  text : String
  facetsDetectedWithoutResolution : Bool
deriving DecidableEq, Repr

/-- Observable effects of one run of the onUpdate editor callback: the calls
it makes to the setRichText and onSuggestedLinksChanged props, in order. -/
inductive Effect where
  | setRichText (rt : RichTextM)
  | onSuggestedLinksChanged (links : List String)
deriving DecidableEq, Repr

/-- Insertion of one string into a JavaScript Set modelled as a list without
duplicates in insertion order: adding an element already present changes
nothing. -/
def jsSetInsert (acc : List String) (x : String) : List String :=
  if acc.contains x then acc else acc ++ [x]

/-- JavaScript `new Set(array)` for an array of strings: the distinct
elements in first-occurrence order. -/
def jsSetOf (l : List String) : List String :=
  l.foldl jsSetInsert []

/-- lodash isEqual restricted to two Sets of strings, which is how onUpdate
uses it: the sizes agree and every member of the first has an equal member in
the second. -/
def isEqualSet (a b : List String) : Bool :=
  a.length == b.length && a.all (fun x => b.contains x)

/-- The onUpdate editor callback from the source: build a fresh RichText from
the trimmed text conversion of the editor JSON, run facet detection without
resolution on it, hand it to setRichText; then build the Set of links of the
editor JSON and hand it to onSuggestedLinksChanged only when it is not
deep-equal to the suggestedLinks prop. -/
def onUpdate (json : JSONContent) (suggestedLinks : List String) : List Effect :=
  let newRt : RichTextM :=
    { text := (editorJsonToText json).trim, facetsDetectedWithoutResolution := true }
  let newSuggestedLinks := jsSetOf (editorJsonToLinks json)
  [Effect.setRichText newRt] ++
    (if isEqualSet newSuggestedLinks suggestedLinks then []
     else [Effect.onSuggestedLinksChanged newSuggestedLinks])

/-- Projection selecting the setRichText calls out of an effect list. -/
def setRichTextCall : Effect → Option RichTextM
  | .setRichText rt => some rt
  | _ => none

/-- Projection selecting the onSuggestedLinksChanged calls out of an effect
list. -/
def suggestedLinksCall : Effect → Option (List String)
  | .onSuggestedLinksChanged ls => some ls
  | _ => none

/-! ### Keyboard, emitter and clipboard -/

/-- The fields of a keydown event the handler reads. -/
structure KeyboardEventM where
  metaKey : Bool
  ctrlKey : Bool
  code : String
deriving DecidableEq, Repr

/-- An event emitted on the memoized emitter.  `emitter.emit('publish')` is
called with no payload, so the single declared parameter of the publish
listener is bound to `undefined`, modelled as `none`. -/
inductive EmittedEvent where
  | publish (arg : Option RichTextM)
  | photoPasted (uri : String)
deriving DecidableEq, Repr

/-- The two callback props that the component registers on the emitter. -/
inductive HandlerRef where
  | onPressPublish
  | onPhotoPasted
deriving DecidableEq, Repr

/-- The listeners registered on the memoized emitter by the two useEffect
blocks: onPressPublish on the publish event and onPhotoPasted on the
photo-pasted event. -/
def emitterListeners (event : String) : List HandlerRef :=
  (if event = "publish" then [HandlerRef.onPressPublish] else []) ++
    (if event = "photo-pasted" then [HandlerRef.onPhotoPasted] else [])

/-- The handleKeyDown editor prop from the source: emit publish exactly when
the event has metaKey or ctrlKey set and its code is Enter.  The emit call
carries no argument. -/
def handleKeyDown (e : KeyboardEventM) : List EmittedEvent :=
  if (e.metaKey || e.ctrlKey) && e.code == "Enter" then [EmittedEvent.publish none]
  else []

/-- A blob: opaque payload plus a MIME type.  `new Blob([file], {type})`
rewraps the payload of an existing blob under a new type. -/
structure BlobM where
  data : String
  type : String
deriving DecidableEq, Repr

/-- A DataTransferItem as the paste handler reads it: its kind and type
strings, the string that getAsString would deliver, and the file that
getAsFile would return (none when there is no file). -/
structure DataTransferItemM where
  kind : String
  type : String
  stringContent : String
  file : Option BlobM
deriving DecidableEq, Repr

/-- The media utilities from lib/media/util and the browser fetch, which are
outside the embedded file: an image-URI recogniser, a fetch returning the
response blob, and blob-to-data-URI conversion, which can fail (the failure
path of the source only logs to the console). -/
structure MediaUtil where
  isUriImage : String → Bool
  fetchBlob : String → BlobM
  blobToDataUri : BlobM → Except String String

/-- The data URIs one clipboard item contributes to the callback inside
getImageFromUri.  The text branch tests only the item type and the file
branch tests only the item kind, so the two tests are independent; a failed
blob-to-data-URI conversion contributes nothing. -/
def itemCallbackUris (mu : MediaUtil) (item : DataTransferItemM) : List String :=
  (if item.type = "text/plain" then
    (if mu.isUriImage item.stringContent then
      (match mu.blobToDataUri (mu.fetchBlob item.stringContent) with
        | .ok uri => [uri]
        | .error _ => [])
     else [])
   else []) ++
  (if item.kind = "file" then
    (match item.file with
      | some f =>
        (match mu.blobToDataUri { data := f.data, type := item.type } with
          | .ok uri => [uri]
          | .error _ => [])
      | none => [])
   else [])

/-- getImageFromUri from the source: iterate over the clipboard items and
pass every obtained data URI to the callback. -/
def getImageFromUri (mu : MediaUtil) (items : List DataTransferItemM) : List String :=
  match items with
  | [] => []
  | item :: rest => itemCallbackUris mu item ++ getImageFromUri mu rest

/-- The handlePaste editor prop from the source: read
`event.clipboardData?.items`; when the clipboard data is undefined return
immediately, otherwise run getImageFromUri and emit photo-pasted for every
URI it delivers. -/
def handlePaste (mu : MediaUtil) (clipboardData : Option (List DataTransferItemM)) :
    List String :=
  match clipboardData with
  | none => []
  | some items => getImageFromUri mu items

/-- The options passed to Link.configure. -/
structure LinkOptions where
  protocols : List String
  autolink : Bool
  linkOnPaste : Bool
deriving DecidableEq, Repr

/-- The Link.configure call of the extensions list in the source. -/
def linkConfiguration : LinkOptions :=
  { protocols := ["http", "https"], autolink := true, linkOnPaste := false }

/-- The imperative handle interface advertised to parents (TextInputRef in
the source), over an abstract component state. -/
structure TextInputRef (σ : Type) where
  focus : σ → σ
  blur : σ → σ

/-- The value installed by useImperativeHandle: both bodies are empty arrow
functions, so both operations leave any state unchanged. -/
def imperativeHandle (σ : Type) : TextInputRef σ :=
  { focus := fun s => s, blur := fun s => s }

/-- Unfolding the item loop of getImageFromUri into the per-item
contributions. -/
theorem getImageFromUri_eq_join (mu : MediaUtil) (items : List DataTransferItemM) :
    getImageFromUri mu items = (items.map (itemCallbackUris mu)).flatten := by
  induction items with
  | nil => rfl
  | cons a l ih => simp [getImageFromUri, ih]

/-! ### Claim theorems about the component callbacks -/

/-- Claim C2: on every editor update, setRichText is called exactly once,
with a fresh RichText whose text is the trimmed text conversion of the editor
JSON and on which facet detection without resolution has been invoked; the
component adds no parsing or facet detection of its own. -/
theorem onUpdate_setRichText_once (json : JSONContent) (suggestedLinks : List String) :
    (onUpdate json suggestedLinks).filterMap setRichTextCall =
      [{ text := (editorJsonToText json).trim
         facetsDetectedWithoutResolution := true }] := by
  simp only [onUpdate]
  split_ifs <;> simp [setRichTextCall]

/-- Claim C7: onSuggestedLinksChanged is called, with the Set of links of the
editor JSON, exactly when that Set is not deep-equal to the suggestedLinks
prop; when the two are deep-equal, no call is made. -/
theorem onUpdate_suggestedLinks_iff (json : JSONContent) (suggestedLinks : List String) :
    (isEqualSet (jsSetOf (editorJsonToLinks json)) suggestedLinks = true →
      (onUpdate json suggestedLinks).filterMap suggestedLinksCall = []) ∧
    (isEqualSet (jsSetOf (editorJsonToLinks json)) suggestedLinks = false →
      (onUpdate json suggestedLinks).filterMap suggestedLinksCall =
        [jsSetOf (editorJsonToLinks json)]) := by
  constructor <;> intro h <;> simp [onUpdate, suggestedLinksCall, h]

/-- Witness for C7 at a concrete empty document, once with an equal prop
value and once with a differing one. -/
theorem onUpdate_suggestedLinks_iff_witness :
    (onUpdate (JSONContent.node (some "doc") JContent.undef none none none)
          []).filterMap suggestedLinksCall = [] ∧
    (onUpdate (JSONContent.node (some "doc") JContent.undef none none none)
          ["https://a.example"]).filterMap suggestedLinksCall =
      [jsSetOf (editorJsonToLinks
        (JSONContent.node (some "doc") JContent.undef none none none))] :=
  ⟨(onUpdate_suggestedLinks_iff (JSONContent.node (some "doc") JContent.undef none none none)
      []).1 (by decide),
   (onUpdate_suggestedLinks_iff (JSONContent.node (some "doc") JContent.undef none none none)
      ["https://a.example"]).2 (by decide)⟩

/-- Claim C4: the publish event is emitted on a keydown exactly when metaKey
or ctrlKey is set and the code equals Enter, and the listener registered for
the publish event is the onPressPublish callback. -/
theorem handleKeyDown_publish_iff (e : KeyboardEventM) :
    ((∃ arg, EmittedEvent.publish arg ∈ handleKeyDown e) ↔
      ((e.metaKey = true ∨ e.ctrlKey = true) ∧ e.code = "Enter")) ∧
    emitterListeners "publish" = [HandlerRef.onPressPublish] := by
  refine ⟨?_, by simp [emitterListeners]⟩
  by_cases h : ((e.metaKey || e.ctrlKey) && e.code == "Enter") = true
  · have h2 : (e.metaKey = true ∨ e.ctrlKey = true) ∧ e.code = "Enter" := by
      simpa [Bool.and_eq_true, Bool.or_eq_true, beq_iff_eq] using h
    exact iff_of_true ⟨none, by simp [handleKeyDown, h]⟩ h2
  · have h2 : ¬ ((e.metaKey = true ∨ e.ctrlKey = true) ∧ e.code = "Enter") := by
      simpa [Bool.and_eq_true, Bool.or_eq_true, beq_iff_eq] using h
    refine iff_of_false ?_ h2
    rintro ⟨arg, harg⟩
    simp [handleKeyDown, h] at harg

/-- Claim C8: the publish emit call carries no argument, so the declared
RichText parameter of the onPressPublish listener is bound to undefined
whenever the keyboard shortcut fires. -/
theorem handleKeyDown_publish_arg_undefined (e : KeyboardEventM) :
    (∀ arg, EmittedEvent.publish arg ∈ handleKeyDown e → arg = none) ∧
    (((e.metaKey || e.ctrlKey) && e.code == "Enter") = true →
      handleKeyDown e = [EmittedEvent.publish none]) := by
  constructor
  · intro arg harg
    by_cases h : ((e.metaKey || e.ctrlKey) && e.code == "Enter") = true
    · simp [handleKeyDown, h] at harg
      exact harg
    · simp [handleKeyDown, h] at harg
  · intro h
    simp [handleKeyDown, h]

/-- Witness for C8 at a concrete ctrl-Enter event. -/
theorem handleKeyDown_publish_arg_undefined_witness :
    ((none : Option RichTextM) = none) ∧
    handleKeyDown { metaKey := false, ctrlKey := true, code := "Enter" } =
      [EmittedEvent.publish none] :=
  ⟨(handleKeyDown_publish_arg_undefined
        { metaKey := false, ctrlKey := true, code := "Enter" }).1 none (by decide),
   (handleKeyDown_publish_arg_undefined
        { metaKey := false, ctrlKey := true, code := "Enter" }).2 (by decide)⟩

/-- Claim C5: a paste with undefined clipboardData does nothing; otherwise
the handler is the concatenation of the per-item contributions, where a
file-kind item whose payload is a blob contributes the data URI of its
rewrapped blob, a text/plain item contributes only when isUriImage accepts
its string content, after fetch and conversion to a data URI, and an item
matching neither test contributes nothing. -/
theorem handlePaste_spec (mu : MediaUtil) (items : List DataTransferItemM)
    (item : DataTransferItemM) :
    handlePaste mu none = [] ∧
    handlePaste mu (some items) = (items.map (itemCallbackUris mu)).flatten ∧
    (item.kind = "file" → item.type ≠ "text/plain" →
      itemCallbackUris mu item =
        (match item.file with
          | some f =>
            (match mu.blobToDataUri { data := f.data, type := item.type } with
              | .ok uri => [uri]
              | .error _ => [])
          | none => [])) ∧
    (item.type = "text/plain" → item.kind ≠ "file" →
      itemCallbackUris mu item =
        (if mu.isUriImage item.stringContent then
          (match mu.blobToDataUri (mu.fetchBlob item.stringContent) with
            | .ok uri => [uri]
            | .error _ => [])
         else [])) ∧
    (item.type ≠ "text/plain" → item.kind ≠ "file" → itemCallbackUris mu item = []) := by
  refine ⟨rfl, getImageFromUri_eq_join mu items, ?_, ?_, ?_⟩
  · intro hk ht
    simp [itemCallbackUris, hk, ht]
  · intro ht hk
    simp [itemCallbackUris, hk, ht]
  · intro ht hk
    simp [itemCallbackUris, hk, ht]

/-- A concrete media utility for the C5 witness: every string is recognised
as an image URI, fetching yields a png blob holding the request string and
conversion always succeeds. -/
def pasteExampleUtil : MediaUtil :=
  { isUriImage := fun _ => true
    fetchBlob := fun s => { data := s, type := "image/png" }
    blobToDataUri := fun b => Except.ok ("data:" ++ b.type ++ ";base64," ++ b.data) }

/-- A concrete file-kind clipboard item for the C5 witness. -/
def pasteFileItemExample : DataTransferItemM :=
  { kind := "file", type := "image/png", stringContent := ""
    file := some { data := "payload", type := "image/png" } }

/-- A concrete text/plain clipboard item for the C5 witness. -/
def pasteTextItemExample : DataTransferItemM :=
  { kind := "string", type := "text/plain"
    stringContent := "https://img.example/a.png", file := none }

/-- A concrete clipboard item matching neither paste branch, for the C5
witness. -/
def pasteOtherItemExample : DataTransferItemM :=
  { kind := "string", type := "text/html", stringContent := "", file := none }

/-- Witness for C5 at the three concrete clipboard items. -/
theorem handlePaste_spec_witness :
    itemCallbackUris pasteExampleUtil pasteFileItemExample =
        ["data:image/png;base64,payload"] ∧
    itemCallbackUris pasteExampleUtil pasteTextItemExample =
        ["data:image/png;base64,https://img.example/a.png"] ∧
    itemCallbackUris pasteExampleUtil pasteOtherItemExample = [] :=
  ⟨((handlePaste_spec pasteExampleUtil [] pasteFileItemExample).2.2.1
        (by decide) (by decide)).trans (by decide),
   ((handlePaste_spec pasteExampleUtil [] pasteTextItemExample).2.2.2.1
        (by decide) (by decide)).trans (by decide),
   (handlePaste_spec pasteExampleUtil [] pasteOtherItemExample).2.2.2.2
        (by decide) (by decide)⟩

/-- Claim C6: the Link extension is configured with autolink enabled, link on
paste disabled, and the protocol whitelist exactly http and https. -/
theorem linkConfiguration_spec :
    linkConfiguration.protocols = ["http", "https"] ∧
    linkConfiguration.autolink = true ∧
    linkConfiguration.linkOnPaste = false :=
  ⟨rfl, rfl, rfl⟩

/-- Claim C9: both operations of the imperative handle are no-ops: they
perform no action and leave any component state unchanged, despite the
interface advertising them as focus and blur. -/
theorem imperativeHandle_noop (σ : Type) (s : σ) :
    (imperativeHandle σ).focus s = s ∧ (imperativeHandle σ).blur s = s :=
  ⟨rfl, rfl⟩

end TextInputWeb
